import Mathlib

/-!
Verification development for the Theia localization-string extraction engine
(`nls-extract`): a shallow embedding of its catalog data structure, escape
decoding, call-site collection and extraction, key-path insertion, and the
deep-merge aggregation step, together with theorems settling the specified
behaviour of each of these operations.
-/

namespace NlsExtract

/-- The `Localization` catalog value: a leaf holds a translated/default string,
an internal node holds a nested catalog, embedded as an association list from
segment to value (JavaScript objects are insertion-ordered string-keyed maps). -/
inductive LocVal where
  | str : String → LocVal
  | cat : List (String × LocVal) → LocVal
deriving Repr

/-- A `Localization` catalog: the association-list form of the JS object. -/
abbrev LocMap := List (String × LocVal)

/-- JS property read `localization[part]`: first binding for the key, if any. -/
def lookupLoc : LocMap → String → Option LocVal
  | [], _ => none
  | (k1, v1) :: rest, k => if k1 = k then some v1 else lookupLoc rest k

/-- JS property write `localization[part] = v`: replace the binding in place if
the key is present, otherwise append a fresh binding. -/
def setKey : LocMap → String → LocVal → LocMap
  | [], k, v => [(k, v)]
  | (k1, v1) :: rest, k, v =>
    if k1 = k then (k, v) :: rest else (k1, v1) :: setKey rest k v

/-- The source's `unescapeMap` record: the eight characters that may follow a
backslash to form an escape sequence, each paired with the character the
sequence decodes to (`\b` is U+0008, `\f` is U+000C). -/
def unescapeTable : List (Char × Char) :=
  [('\'', '\''), ('"', '"'), ('\\', '\\'), ('n', '\n'),
   ('r', '\r'), ('t', '\t'), ('b', Char.ofNat 8), ('f', Char.ofNat 12)]

/-- The lookup `unescapeMap[str.charAt(i + 1)]`. -/
def unescapeMap (c : Char) : Option Char :=
  (unescapeTable.find? (fun entry => entry.1 = c)).map Prod.snd

/-- The source's `unescapeString` loop over the character sequence: a backslash
followed by a mapped character emits the decoded character and skips both;
any other character (including a backslash whose successor is unmapped or
missing) is emitted unchanged. -/
def unescapeChars : List Char → List Char
  | [] => []
  | [c] => [c]
  | c :: d :: rest =>
    if c = '\\' then
      match unescapeMap d with
      | some r => r :: unescapeChars rest
      | none => c :: unescapeChars (d :: rest)
    else c :: unescapeChars (d :: rest)

/-- `unescapeString` on `String`s, via the character-list loop. -/
def unescapeString (s : String) : String := String.mk (unescapeChars s.data)

/-- JS `key.split('/')` (single-character separator, keeps empty fields,
yields `[""]` on the empty string), written on the character list. -/
def splitCharGo (sep : Char) : List Char → List Char → List String
  | [], acc => [String.mk acc.reverse]
  | c :: rest, acc =>
    if c = sep then String.mk acc.reverse :: splitCharGo sep rest []
    else splitCharGo sep rest (c :: acc)

/-- `key.split('/')` from the source's `insert`. -/
def splitSlash (s : String) : List String := splitCharGo '/' s.data []

/-- JS `parts.join('/')`. -/
def joinSlash : List String → String
  | [] => ""
  | [s] => s
  | s :: rest => s ++ "/" ++ joinSlash rest

/-- JS `key.startsWith(pat)` on character lists (first argument the candidate
starting piece, second the full key). -/
def charsStarts : List Char → List Char → Bool
  | [], _ => true
  | _ :: _, [] => false
  | p :: ps, c :: cs => (p = c) && charsStarts ps cs

/-- JS `s.startsWith(pat)`. -/
def strStarts (s pat : String) : Bool := charsStarts pat.data s.data

/-- The segment walk of the source's `insert`, carrying the original `key`
(used verbatim in the terminal conflict message) and the already-consumed
segments `acc` (whose extension names the conflicting intermediate path, as
`parts.splice(0, i + 1).join('/')` does). The JS function mutates the catalog
in place and throws on a structural conflict; this embedding returns the
catalog as left by the call together with the thrown message, if any, so that
partial mutation before a throw would be observable. At the terminal segment
an existing nested catalog is a conflict, anything else is overwritten; at an
intermediate segment an existing string is a conflict, an existing nested
catalog is descended into, and a missing entry becomes a fresh `{}` node. -/
def insertGo (key : String) (value : String) :
    List String → List String → LocMap → LocMap × Option String
  | _, [], loc => (loc, none)
  | _, [p], loc =>
    match lookupLoc loc p with
    | some (LocVal.cat _) =>
      (loc, some ("Multiple tranlation keys already exist at \x27" ++ key ++ "\x27"))
    | _ => (setKey loc p (LocVal.str value), none)
  | acc, p :: q :: rest, loc =>
    match lookupLoc loc p with
    | some (LocVal.str _) =>
      (loc, some ("String entry already exists at \x27" ++ joinSlash (acc ++ [p]) ++ "\x27"))
    | some (LocVal.cat sub) =>
      let r := insertGo key value (acc ++ [p]) (q :: rest) sub
      (setKey loc p (LocVal.cat r.1), r.2)
    | none =>
      let r := insertGo key value (acc ++ [p]) (q :: rest) []
      (setKey loc p (LocVal.cat r.1), r.2)

/-- The source's `insert(localization, key, value)`: split the key on `/` and
walk the segments. Returns the catalog after the call and the thrown
structural-conflict message, if any. -/
def insert (loc : LocMap) (key : String) (value : String) : LocMap × Option String :=
  insertGo key value [] (splitSlash key) loc

/-- Follow a list of segments through nested catalogs, returning the catalog
reached when every segment resolves to a nested catalog. -/
def findCat : LocMap → List String → Option LocMap
  | loc, [] => some loc
  | loc, p :: rest =>
    match lookupLoc loc p with
    | some (LocVal.cat sub) => findCat sub rest
    | _ => none

/-- The value reachable from a catalog via a non-empty segment path (descending
through nested catalogs at every segment but the last). -/
def getPath : LocMap → List String → Option LocVal
  | _, [] => none
  | loc, [p] => lookupLoc loc p
  | loc, p :: q :: rest =>
    match lookupLoc loc p with
    | some (LocVal.cat sub) => getPath sub (q :: rest)
    | _ => none

/-- Spec-level description of a structural conflict for `insert` (§4.5 of the
spec): walking the key's segments through the catalog, some intermediate
segment already holds a string, or the terminal segment already holds a nested
catalog. Stated independently of `insert` so the implementation can be proved
to fail exactly on this condition. -/
def conflictSpec : LocMap → List String → Bool
  | _, [] => false
  | loc, [p] =>
    match lookupLoc loc p with
    | some (LocVal.cat _) => true
    | _ => false
  | loc, p :: q :: rest =>
    match lookupLoc loc p with
    | some (LocVal.str _) => true
    | some (LocVal.cat sub) => conflictSpec sub (q :: rest)
    | none => false

mutual

/-- Modelled from the spec: the `deepmerge` library call used by `extract` is
not part of the repository, so its merge of an old value and a new value is
taken from §4.6: nested catalogs merge recursively, in every other case the
later (new) value wins. -/
def deepmergeVal : Option LocVal → LocVal → LocVal
  | some (LocVal.cat sub1), LocVal.cat sub2 => LocVal.cat (deepmergeMap sub1 sub2)
  | _, v => v

/-- Modelled from the spec: `deepmerge(base, overlay)` from §4.6 — for every
key of the overlay, merge its value onto the base's value for that key. -/
def deepmergeMap : LocMap → LocMap → LocMap
  | base, [] => base
  | base, (k, v) :: rest =>
    deepmergeMap (setKey base k (deepmergeVal (lookupLoc base k) v)) rest

end

/-- A property name in an object literal: `ts.isIdentifier(property.name)`
distinguishes identifier names from string-literal/computed names. -/
inductive PropName where
  | identName (text : String)
  | otherName (text : String)

mutual

/-- The fragment of `ts.Node` the extractor inspects. A call expression keeps
the source text of its invoked expression (the code only ever reads
`node.expression.getText()`) and its argument nodes; an object literal keeps
its members; `otherExpr` stands for every other node kind, keeping only its
child nodes for the tree walk. String literals carry their cooked `text`. -/
inductive Expr where
  | strLit (text : String)
  | identExpr (text : String)
  | objLit (props : PropList)
  | callExpr (callee : String) (args : ExprList)
  | otherExpr (childNodes : ExprList)

/-- The argument / child list of a node. -/
inductive ExprList where
  | nil
  | cons (head : Expr) (tail : ExprList)

/-- An object-literal member: a property assignment with a name and an
initializer, or any other member kind (shorthand, method, accessor, spread),
of which only the optional name is relevant to the extractor. -/
inductive ObjProp where
  | assign (name : PropName) (init : Expr)
  | otherMember (name : Option PropName)

/-- The member list of an object literal. -/
inductive PropList where
  | nil
  | cons (head : ObjProp) (tail : PropList)

end

/-- `args.length` for an argument list. -/
def ExprList.length : ExprList → Nat
  | ExprList.nil => 0
  | ExprList.cons _ t => t.length + 1

/-- Argument lists as ordinary lists (for the collector's output). -/
def toListE : ExprList → List Expr
  | ExprList.nil => []
  | ExprList.cons e r => e :: toListE r

/-- The initializers of the property assignments of an object literal, the
child expressions the tree walk can descend into. -/
def propInitList : PropList → List Expr
  | PropList.nil => []
  | PropList.cons (ObjProp.assign _ init) rest => init :: propInitList rest
  | PropList.cons (ObjProp.otherMember _) rest => propInitList rest

/-- The child nodes of a node, as visited by `ts.forEachChild`. -/
def children : Expr → List Expr
  | Expr.strLit _ => []
  | Expr.identExpr _ => []
  | Expr.objLit props => propInitList props
  | Expr.callExpr _ args => toListE args
  | Expr.otherExpr cs => toListE cs

/-- `node.getText()` of the syntax adapter (the node's source text), rendered
canonically from the embedded node; the extractor only ever interpolates it
into diagnostic messages. -/
def getText : Expr → String
  | Expr.strLit s => "\x27" ++ s ++ "\x27"
  | Expr.identExpr t => t
  | Expr.objLit _ => "\x7b...\x7d"
  | Expr.callExpr c _ => c ++ "(...)"
  | Expr.otherExpr _ => "..."

/-- The node a `TypeScriptError` carries: `buildErrorMessage` renders the
node's source file and 1-based line/column in front of the message. Errors
thrown inside `extractFromLocalizedCommandCall`'s property loop carry the
offending object-literal member instead of an expression node. -/
inductive ErrNode where
  | exprNode (e : Expr)
  | memberNode (p : ObjProp)

/-- A thrown `TypeScriptError`: the diagnostic message together with the node
whose source location prefixes it. -/
structure TSError where
  message : String
  node : ErrNode

/-- The source's `isLocalizeCall`: a call expression whose invoked
expression's text is `nls.localize`. -/
def isLocalizeCall : Expr → Bool
  | Expr.callExpr c _ => c = "nls.localize"
  | _ => false

/-- The source's `isCommandLocalizeUtility`: a call expression whose invoked
expression's text is `Command.toLocalizedCommand`. -/
def isCommandLocalizeUtility : Expr → Bool
  | Expr.callExpr c _ => c = "Command.toLocalizedCommand"
  | _ => false

/-- `ts.isStringLiteral`. -/
def isStringLiteral : Expr → Bool
  | Expr.strLit _ => true
  | _ => false

/-- The source's `extractString`: a string-literal node yields its unescaped
text, anything else throws `'<text>' is not a string constant` at that node. -/
def extractString (node : Expr) : Except TSError String :=
  match node with
  | Expr.strLit text => Except.ok (unescapeString text)
  | _ =>
    Except.error
      ⟨"\x27" ++ getText node ++ "\x27 is not a string constant", ErrNode.exprNode node⟩

/-- The source's `extractFromLocalizeCall` (Pattern A): requires a call
expression with at least two arguments, extracts argument 0 as the key and
argument 1 as the default value, both string literals. -/
def extractFromLocalizeCall (node : Expr) : Except TSError (String × String) :=
  match node with
  | Expr.callExpr _ (ExprList.cons a0 (ExprList.cons a1 _)) =>
    (match extractString a0 with
     | Except.error e => Except.error e
     | Except.ok key =>
       match extractString a1 with
       | Except.error e => Except.error e
       | Except.ok value => Except.ok (key, value))
  | Expr.callExpr _ _ =>
    Except.error ⟨"Localize call needs at least 2 arguments", ErrNode.exprNode node⟩
  | _ => Except.error ⟨"Invalid node type", ErrNode.exprNode node⟩

/-- `relevantProps` from the source: the object-literal properties the
command extractor reads. -/
def relevantProps : List String := ["id", "label", "category"]

/-- JS `Map.get`. -/
def mapGet : List (String × String) → String → Option String
  | [], _ => none
  | (k1, v1) :: rest, k => if k1 = k then some v1 else mapGet rest k

/-- JS `Map.set`: replace an existing binding in place, else append. -/
def mapSet : List (String × String) → String → String → List (String × String)
  | [], k, v => [(k, v)]
  | (k1, v1) :: rest, k, v =>
    if k1 = k then (k, v) :: rest else (k1, v1) :: mapSet rest k v

/-- JS truthiness of a `string | undefined` value: `undefined` and the empty
string are falsy. -/
def jsTruthy : Option String → Bool
  | none => false
  | some s => !(s = "")

/-- The property loop of `extractFromLocalizedCommandCall`, building
`propertyMap`: members without a name are skipped; a named member that is not
a property assignment, or whose name is not an identifier, throws; assignments
to names outside `relevantProps` are skipped; the rest have their initializer
extracted as a string literal (which may itself throw). -/
def buildPropMapGo : PropList → List (String × String) →
    Except TSError (List (String × String))
  | PropList.nil, acc => Except.ok acc
  | PropList.cons p rest, acc =>
    match p with
    | ObjProp.otherMember none => buildPropMapGo rest acc
    | ObjProp.otherMember (some nm) =>
      Except.error
        ⟨"Only property assignments in \"toLocalizedCommand\" are allowed",
         ErrNode.memberNode (ObjProp.otherMember (some nm))⟩
    | ObjProp.assign (PropName.otherName t) init =>
      Except.error
        ⟨"Only identifiers are allowed in \"toLocalizedCommand\"",
         ErrNode.memberNode (ObjProp.assign (PropName.otherName t) init)⟩
    | ObjProp.assign (PropName.identName nm) init =>
      if nm ∈ relevantProps then
        match extractString init with
        | Except.error e => Except.error e
        | Except.ok v => buildPropMapGo rest (mapSet acc nm v)
      else buildPropMapGo rest acc

/-- `propertyMap` of a member list, starting from the empty map. -/
def buildPropMap (props : PropList) : Except TSError (List (String × String)) :=
  buildPropMapGo props []

/-- The label-key computation of `extractFromLocalizedCommandCall`:
`labelKey = propertyMap.get('id')`, overridden by
`extractString(args[1]) || labelKey` when argument 1 exists (`restArgs` is the
argument list after the command object). The `||` makes an empty extracted
string fall back to the `id` value, JS falsy coalescing. -/
def computeLabelKey (pm : List (String × String)) (restArgs : ExprList) :
    Except TSError (Option String) :=
  match restArgs with
  | ExprList.nil => Except.ok (mapGet pm "id")
  | ExprList.cons a1 _ =>
    match extractString a1 with
    | Except.error e => Except.error e
    | Except.ok s => Except.ok (if s = "" then mapGet pm "id" else some s)

/-- The category-key computation of `extractFromLocalizedCommandCall`:
`categoryKey = extractString(args[2])` when argument 2 exists, else absent. -/
def computeCategoryKey : ExprList → Except TSError (Option String)
  | ExprList.cons _ (ExprList.cons a2 _) =>
    (match extractString a2 with
     | Except.error e => Except.error e
     | Except.ok s => Except.ok (some s))
  | _ => Except.ok none

/-- The result shape of `extractFromLocalizedCommandCall`: a mandatory label
pair and an optional category pair. -/
structure LocalizedCommand where
  label : String × String
  category : Option (String × String)

/-- The source's `extractFromLocalizedCommandCall` (Pattern B): argument 0
must be an object literal; `propertyMap` is built from its members; the label
key defaults to `id` overridden by a truthy argument 1; the category key is
argument 2; a falsy label key or falsy `label` property throws; the category
pair is produced only when both the category key and the `category` property
value are truthy. -/
def extractFromLocalizedCommandCall (node : Expr) : Except TSError LocalizedCommand :=
  match node with
  | Expr.callExpr _ (ExprList.cons commandObj restArgs) =>
    (match commandObj with
     | Expr.objLit props =>
       (match buildPropMap props with
        | Except.error e => Except.error e
        | Except.ok pm =>
          match computeLabelKey pm restArgs with
          | Except.error e => Except.error e
          | Except.ok labelKey =>
            match computeCategoryKey restArgs with
            | Except.error e => Except.error e
            | Except.ok categoryKey =>
              if jsTruthy labelKey = false then
                Except.error ⟨"No label key found", ErrNode.exprNode node⟩
              else if jsTruthy (mapGet pm "label") = false then
                Except.error ⟨"No default label found", ErrNode.exprNode node⟩
              else
                Except.ok
                  ⟨(labelKey.getD "", (mapGet pm "label").getD ""),
                   if jsTruthy categoryKey && jsTruthy (mapGet pm "category") then
                     some (categoryKey.getD "", (mapGet pm "category").getD "")
                   else none⟩)
     | _ =>
       Except.error
         ⟨"First argument of \"toLocalizedCommand\" needs to be an object literal",
          ErrNode.exprNode node⟩)
  | Expr.callExpr _ ExprList.nil =>
    Except.error ⟨"Localize call needs at least 2 arguments", ErrNode.exprNode node⟩
  | _ => Except.error ⟨"Invalid node type", ErrNode.exprNode node⟩

mutual

/-- The source's `collect(n, fn)`: the depth-first walk that collects a node
when the predicate matches it and otherwise descends into its children (as
`ts.forEachChild` enumerates them), never descending into a collected node. -/
def collect (fn : Expr → Bool) (e : Expr) : List Expr :=
  if fn e then [e]
  else
    match e with
    | Expr.strLit _ => []
    | Expr.identExpr _ => []
    | Expr.objLit props => collectProps fn props
    | Expr.callExpr _ args => collectList fn args
    | Expr.otherExpr cs => collectList fn cs
termination_by structural e

/-- The walk over a child list, left to right. -/
def collectList (fn : Expr → Bool) : ExprList → List Expr
  | ExprList.nil => []
  | ExprList.cons e rest => collect fn e ++ collectList fn rest
termination_by structural l => l

/-- The walk over an object literal's members, left to right. -/
def collectProps (fn : Expr → Bool) : PropList → List Expr
  | PropList.nil => []
  | PropList.cons p rest => collectProp fn p ++ collectProps fn rest
termination_by structural l => l

/-- The walk over one member: only a property assignment has a child
expression to descend into. -/
def collectProp (fn : Expr → Bool) : ObjProp → List Expr
  | ObjProp.assign _ init => collect fn init
  | ObjProp.otherMember _ => []
termination_by structural p => p

end

mutual

/-- The depth-first (source-order) enumeration of all nodes of a tree. -/
def preorder (e : Expr) : List Expr :=
  e ::
    match e with
    | Expr.strLit _ => []
    | Expr.identExpr _ => []
    | Expr.objLit props => preorderProps props
    | Expr.callExpr _ args => preorderList args
    | Expr.otherExpr cs => preorderList cs
termination_by structural e

/-- Preorder enumeration over a child list. -/
def preorderList : ExprList → List Expr
  | ExprList.nil => []
  | ExprList.cons e rest => preorder e ++ preorderList rest
termination_by structural l => l

/-- Preorder enumeration over an object literal's members. -/
def preorderProps : PropList → List Expr
  | PropList.nil => []
  | PropList.cons p rest => preorderProp p ++ preorderProps rest
termination_by structural l => l

/-- Preorder enumeration over one member. -/
def preorderProp : ObjProp → List Expr
  | ObjProp.assign _ init => preorder init
  | ObjProp.otherMember _ => []
termination_by structural p => p

end

/-- The `ExtractionOptions` record. Only `exclude` and `merge` influence the
pure extraction semantics; the path/glob fields are carried for fidelity. -/
structure ExtractionOptions where
  root : String
  output : String
  exclude : Option String
  logs : Option String
  pat : Option String
  merge : Bool

/-- The source's `isExcluded`: `!!options.exclude && key.startsWith(options.exclude)`.
An absent or empty `exclude` (both falsy in JS) excludes nothing. -/
def isExcluded (options : ExtractionOptions) (key : String) : Bool :=
  match options.exclude with
  | none => false
  | some e => if e = "" then false else strStarts key e

/-- One recorded entry of the `errors` sink: the message of a caught
`TypeScriptError` (with the node whose location prefixes it), or the plain
message of a structural-conflict error thrown by `insert`. -/
inductive RecError where
  | tsErr (e : TSError)
  | insertErr (message : String)

/-- The first loop of `extractFromFile`, over the collected `nls.localize`
calls: each call is extracted; an extraction failure is recorded and the loop
continues; an extracted pair whose key is excluded is dropped; otherwise the
pair is inserted, a structural-conflict message being recorded while the
catalog is kept as `insert` left it. -/
def processLocalizeCalls (options : ExtractionOptions) :
    List Expr → LocMap → List RecError → LocMap × List RecError
  | [], loc, errs => (loc, errs)
  | call :: rest, loc, errs =>
    match extractFromLocalizeCall call with
    | Except.error e => processLocalizeCalls options rest loc (errs ++ [RecError.tsErr e])
    | Except.ok kv =>
      if isExcluded options kv.1 then processLocalizeCalls options rest loc errs
      else
        match insert loc kv.1 kv.2 with
        | (loc2, none) => processLocalizeCalls options rest loc2 errs
        | (loc2, some msg) =>
          processLocalizeCalls options rest loc2 (errs ++ [RecError.insertErr msg])

/-- The category half of one command call's insertion: skipped when absent or
excluded, otherwise inserted with a conflict recorded on failure. -/
def processCategoryPart (options : ExtractionOptions) (loc : LocMap)
    (errs : List RecError) : Option (String × String) → LocMap × List RecError
  | none => (loc, errs)
  | some (ck, cv) =>
    if isExcluded options ck then (loc, errs)
    else
      match insert loc ck cv with
      | (loc2, none) => (loc2, errs)
      | (loc2, some msg) => (loc2, errs ++ [RecError.insertErr msg])

/-- The insertions for one successfully extracted command call: the label pair
first (skipped if excluded), then the category pair. Both insertions sit in
one `try` block, so a conflict thrown by the label insertion records one error
and skips the category insertion. -/
def processCommandCall (options : ExtractionOptions) (loc : LocMap)
    (errs : List RecError) (cmd : LocalizedCommand) : LocMap × List RecError :=
  if isExcluded options cmd.label.1 then
    processCategoryPart options loc errs cmd.category
  else
    match insert loc cmd.label.1 cmd.label.2 with
    | (loc2, some msg) => (loc2, errs ++ [RecError.insertErr msg])
    | (loc2, none) => processCategoryPart options loc2 errs cmd.category

/-- The second loop of `extractFromFile`, over the collected
`Command.toLocalizedCommand` calls. -/
def processCommandCalls (options : ExtractionOptions) :
    List Expr → LocMap → List RecError → LocMap × List RecError
  | [], loc, errs => (loc, errs)
  | call :: rest, loc, errs =>
    match extractFromLocalizedCommandCall call with
    | Except.error e => processCommandCalls options rest loc (errs ++ [RecError.tsErr e])
    | Except.ok cmd =>
      match processCommandCall options loc errs cmd with
      | (loc2, errs2) => processCommandCalls options rest loc2 errs2

/-- The source's `extractFromFile`, on the already-built tree of one file
(reading the file and building its tree are the syntax adapter's black-box
I/O): collect both call patterns and run the two processing loops over a fresh
per-file catalog, returning the fragment and the errors appended to the sink. -/
def extractFromFile (options : ExtractionOptions) (sourceFile : Expr) :
    LocMap × List RecError :=
  match processLocalizeCalls options (collect isLocalizeCall sourceFile) [] [] with
  | (loc1, errs1) =>
    processCommandCalls options (collect isCommandLocalizeUtility sourceFile) loc1 errs1

/-- The merge-mode step of `extract` (its pure core): when `merge` is set and
the output file already exists with content `existing`, the run's aggregate is
deep-merged on top of the existing catalog; otherwise the aggregate is written
as is. -/
def applyMergeMode (merge : Bool) (existing : Option LocMap) (aggregate : LocMap) : LocMap :=
  if merge then
    match existing with
    | some e => deepmergeMap e aggregate
    | none => aggregate
  else aggregate

/-- Already-unescaped text: no backslash is followed by a character of the
escape table, so the decoder has nothing to decode. -/
def noEscapes : List Char → Bool
  | c :: d :: rest => (!(c = '\\' && (unescapeMap d).isSome)) && noEscapes (d :: rest)
  | _ => true

end NlsExtract

namespace NlsExtract

/-- A successful lookup is preserved verbatim by writing the same value back:
`localization[part] = entry` with the entry just read is the identity. -/
theorem setKey_self : ∀ (loc : LocMap) (k : String) (v : LocVal),
    lookupLoc loc k = some v → setKey loc k v = loc
  | [], k, v, h => by simp [lookupLoc] at h
  | (k1, v1) :: rest, k, v, h => by
    by_cases hk : k1 = k
    · subst hk
      simp [lookupLoc] at h
      simp [setKey, h]
    · simp [lookupLoc, hk] at h
      simp [setKey, hk, setKey_self rest k v h]

/-- Reading after writing: the written key returns the new value, every other
key is untouched. -/
theorem lookup_setKey : ∀ (loc : LocMap) (k : String) (v : LocVal) (k2 : String),
    lookupLoc (setKey loc k v) k2 = if k2 = k then some v else lookupLoc loc k2
  | [], k, v, k2 => by
    simp only [setKey, lookupLoc]
    by_cases h : k2 = k
    · simp [h]
    · have h' : ¬k = k2 := fun e => h e.symm
      simp [h, h']
  | (k1, v1) :: rest, k, v, k2 => by
    simp only [setKey]
    by_cases hk : k1 = k
    · subst hk
      simp only [if_pos rfl]
      by_cases h2 : k2 = k1
      · subst h2
        simp [lookupLoc]
      · have h2' : ¬k1 = k2 := fun e => h2 e.symm
        simp [lookupLoc, h2', h2]
    · simp only [if_neg hk]
      by_cases h2 : k2 = k1
      · subst h2
        have hne : ¬k2 = k := fun e => hk (by rw [e])
        simp [lookupLoc, hne]
      · have h2' : ¬k1 = k2 := fun e => h2 e.symm
        simp only [lookupLoc, if_neg h2']
        exact lookup_setKey rest k v k2

/-- A key outside the binding list looks up to nothing. -/
theorem lookup_eq_none_of_notMem : ∀ (loc : LocMap) (k : String),
    k ∉ loc.map Prod.fst → lookupLoc loc k = none
  | [], _, _ => rfl
  | (k1, v1) :: rest, k, h => by
    simp only [List.map, List.mem_cons, not_or] at h
    have : ¬k1 = k := fun h2 => h.1 h2.symm
    simp [lookupLoc, this]
    exact lookup_eq_none_of_notMem rest k h.2

/-- A character other than a backslash is always emitted unchanged with the
loop moving on by one. -/
theorem unescapeChars_cons_of_ne (d : Char) (rest : List Char) (hd : ¬d = '\\') :
    unescapeChars (d :: rest) = d :: unescapeChars rest := by
  cases rest with
  | nil => rfl
  | cons r rest2 => rw [unescapeChars, if_neg hd]

/-- Decoding is the identity on text with no escape sequence to decode. -/
theorem unescapeChars_id_of_noEscapes : ∀ (s : List Char),
    noEscapes s = true → unescapeChars s = s
  | [], _ => rfl
  | [c], _ => rfl
  | c :: d :: rest, h => by
    rw [noEscapes, Bool.and_eq_true] at h
    obtain ⟨h1, h2⟩ := h
    rw [unescapeChars]
    by_cases hc : c = '\\'
    · cases hm : unescapeMap d with
      | some r => simp [hc, hm] at h1
      | none => simp [hc, hm, unescapeChars_id_of_noEscapes (d :: rest) h2]
    · simp [hc, unescapeChars_id_of_noEscapes (d :: rest) h2]

/-- C3: decoding replaces each of the eight recognised two-character escape
sequences (backslash followed by a quote, double quote, backslash, `n`, `r`,
`t`, `b`, `f`) with its single-character meaning; a backslash followed by any
unmapped character is kept as a literal backslash plus that character;
`unescape("a\nb")` inserts a newline while `unescape("a\qb")` is unchanged;
and decoding is the identity (hence idempotent) on already-unescaped text. -/
theorem unescapeString_spec :
    (∀ d r rest, unescapeMap d = some r →
      unescapeChars ('\\' :: d :: rest) = r :: unescapeChars rest) ∧
    (∀ d rest, unescapeMap d = none →
      unescapeChars ('\\' :: d :: rest) = '\\' :: d :: unescapeChars rest) ∧
    (unescapeMap '\'' = some '\'' ∧ unescapeMap '"' = some '"' ∧
      unescapeMap '\\' = some '\\' ∧ unescapeMap 'n' = some '\n' ∧
      unescapeMap 'r' = some '\r' ∧ unescapeMap 't' = some '\t' ∧
      unescapeMap 'b' = some (Char.ofNat 8) ∧ unescapeMap 'f' = some (Char.ofNat 12)) ∧
    unescapeString "a\\nb" = "a\nb" ∧
    unescapeString "a\\qb" = "a\\qb" ∧
    (∀ s, noEscapes s = true → unescapeChars s = s) := by
  refine ⟨?_, ?_, by decide, by decide, by decide, unescapeChars_id_of_noEscapes⟩
  · intro d r rest h
    rw [unescapeChars]
    simp [h]
  · intro d rest h
    have hd : ¬d = '\\' := by
      intro e
      rw [e] at h
      exact absurd h (by decide)
    rw [unescapeChars]
    simp [h, unescapeChars_cons_of_ne d rest hd]

/-- Witness for `unescapeString_spec` at concrete inputs: `\n` decodes to a
newline, the unknown escape `\q` is kept verbatim, and plain text is fixed. -/
theorem unescapeString_spec_witness :
    unescapeChars ['\\', 'n', 'x'] = ['\n', 'x'] ∧
    unescapeChars ['\\', 'q'] = ['\\', 'q'] ∧
    unescapeChars ['a', 'b'] = ['a', 'b'] :=
  ⟨unescapeString_spec.1 'n' '\n' ['x'] (by decide),
   unescapeString_spec.2.1 'q' [] (by decide),
   unescapeString_spec.2.2.2.2.2 ['a', 'b'] (by decide)⟩

/-- The split of a key is never the empty segment list. -/
theorem splitCharGo_ne_nil (sep : Char) : ∀ (s acc : List Char),
    splitCharGo sep s acc ≠ []
  | [], acc => by simp [splitCharGo]
  | c :: rest, acc => by
    rw [splitCharGo]
    by_cases h : c = sep
    · simp [h]
    · simp only [if_neg h]
      exact splitCharGo_ne_nil sep rest (c :: acc)

/-- `key.split('/')` always has at least one segment. -/
theorem splitSlash_ne_nil (s : String) : splitSlash s ≠ [] :=
  splitCharGo_ne_nil '/' s.data []

/-- Inserting below a freshly created `{}` node can never conflict: every
lookup in the fresh catalog misses. -/
theorem insertGo_fresh (key value : String) : ∀ (parts acc : List String),
    (insertGo key value acc parts []).2 = none
  | [], _ => rfl
  | [p], _ => rfl
  | p :: q :: rest, acc => by
    simp only [insertGo, lookupLoc]
    exact insertGo_fresh key value (q :: rest) (acc ++ [p])

/-- When `insert`'s walk throws, the catalog is exactly as it was: the only
writes before a conflict re-store entries that were already present (a fresh
intermediate node implies no conflict can follow below it). -/
theorem insertGo_err_unchanged (key value : String) :
    ∀ (parts acc : List String) (loc : LocMap) (m : String),
      (insertGo key value acc parts loc).2 = some m →
      (insertGo key value acc parts loc).1 = loc
  | [], _, loc, m => by simp [insertGo]
  | [p], acc, loc, m => by
    cases hl : lookupLoc loc p with
    | none => simp [insertGo, hl]
    | some v =>
      cases v with
      | str s => simp [insertGo, hl]
      | cat c => simp [insertGo, hl]
  | p :: q :: rest, acc, loc, m => by
    cases hl : lookupLoc loc p with
    | none =>
      simp [insertGo, hl, insertGo_fresh key value (q :: rest) (acc ++ [p])]
    | some v =>
      cases v with
      | str s => simp [insertGo, hl]
      | cat sub =>
        simp only [insertGo, hl]
        intro h
        rw [insertGo_err_unchanged key value (q :: rest) (acc ++ [p]) sub m h]
        exact setKey_self loc p (LocVal.cat sub) hl

/-- `insert`'s walk throws exactly on the spec's structural-conflict
condition. -/
theorem insertGo_isSome_eq_conflict (key value : String) :
    ∀ (parts acc : List String) (loc : LocMap),
      (insertGo key value acc parts loc).2.isSome = conflictSpec loc parts
  | [], _, loc => by simp [insertGo, conflictSpec]
  | [p], acc, loc => by
    cases hl : lookupLoc loc p with
    | none => simp [insertGo, conflictSpec, hl]
    | some v =>
      cases v with
      | str s => simp [insertGo, conflictSpec, hl]
      | cat c => simp [insertGo, conflictSpec, hl]
  | p :: q :: rest, acc, loc => by
    cases hl : lookupLoc loc p with
    | none =>
      simp [insertGo, conflictSpec, hl, insertGo_fresh key value (q :: rest) (acc ++ [p])]
    | some v =>
      cases v with
      | str s => simp [insertGo, conflictSpec, hl]
      | cat sub =>
        simp only [insertGo, conflictSpec, hl]
        exact insertGo_isSome_eq_conflict key value (q :: rest) (acc ++ [p]) sub

/-- A key whose intermediate segments all resolve to nested catalogs and whose
terminal segment resolves to a string is conflict-free. -/
theorem conflictSpec_false_of_str : ∀ (pre : List String) (loc c : LocMap) (p s : String),
    findCat loc pre = some c → lookupLoc c p = some (LocVal.str s) →
    conflictSpec loc (pre ++ [p]) = false
  | [], loc, c, p, s, hf, hl => by
    simp only [findCat, Option.some.injEq] at hf
    subst hf
    simp [conflictSpec, hl]
  | a :: pre', loc, c, p, s, hf, hl => by
    cases hla : lookupLoc loc a with
    | none => simp [findCat, hla] at hf
    | some v =>
      cases v with
      | str s2 => simp [findCat, hla] at hf
      | cat sub =>
        have hf' : findCat sub pre' = some c := by simpa [findCat, hla] using hf
        have IH := conflictSpec_false_of_str pre' sub c p s hf' hl
        obtain ⟨q, tl, hq⟩ : ∃ q tl, pre' ++ [p] = q :: tl := by
          cases pre' with
          | nil => exact ⟨p, [], rfl⟩
          | cons x xs => exact ⟨x, xs ++ [p], rfl⟩
        rw [List.cons_append, hq, conflictSpec, hla, ← hq]
        exact IH

/-- A successful `insert` walk stores the value at the key's path and leaves
that path conflict-free (so re-inserting the same key succeeds). -/
theorem insertGo_success (key value : String) : ∀ (parts acc : List String) (loc : LocMap),
    parts ≠ [] → (insertGo key value acc parts loc).2 = none →
    getPath (insertGo key value acc parts loc).1 parts = some (LocVal.str value) ∧
    conflictSpec (insertGo key value acc parts loc).1 parts = false
  | [], _, _, hne, _ => absurd rfl hne
  | [p], acc, loc, _, herr => by
    cases hl : lookupLoc loc p with
    | none => simp [insertGo, hl, getPath, conflictSpec, lookup_setKey]
    | some v =>
      cases v with
      | str s => simp [insertGo, hl, getPath, conflictSpec, lookup_setKey]
      | cat c => simp [insertGo, hl] at herr
  | p :: q :: rest, acc, loc, _, herr => by
    cases hl : lookupLoc loc p with
    | none =>
      simp only [insertGo, hl] at herr ⊢
      have IH := insertGo_success key value (q :: rest) (acc ++ [p]) []
        (by simp) (insertGo_fresh key value (q :: rest) (acc ++ [p]))
      constructor
      · rw [getPath, lookup_setKey]
        simp only [if_pos rfl]
        exact IH.1
      · rw [conflictSpec, lookup_setKey]
        simp only [if_pos rfl]
        exact IH.2
    | some v =>
      cases v with
      | str s => simp [insertGo, hl] at herr
      | cat sub =>
        simp only [insertGo, hl] at herr ⊢
        have IH := insertGo_success key value (q :: rest) (acc ++ [p]) sub (by simp) herr
        constructor
        · rw [getPath, lookup_setKey]
          simp only [if_pos rfl]
          exact IH.1
        · rw [conflictSpec, lookup_setKey]
          simp only [if_pos rfl]
          exact IH.2

/-- Walking into a string entry at an intermediate segment throws, names the
conflicting path consumed so far, and leaves every catalog on the way
unchanged. -/
theorem insertGo_inter_conflict (key value : String) :
    ∀ (pre acc : List String) (loc c : LocMap) (p : String) (rest : List String) (s : String),
      rest ≠ [] → findCat loc pre = some c → lookupLoc c p = some (LocVal.str s) →
      insertGo key value acc (pre ++ p :: rest) loc =
        (loc, some ("String entry already exists at \x27" ++
          joinSlash (acc ++ pre ++ [p]) ++ "\x27"))
  | [], acc, loc, c, p, rest, s, hne, hf, hl => by
    simp only [findCat, Option.some.injEq] at hf
    subst hf
    cases rest with
    | nil => exact absurd rfl hne
    | cons q tl => simp [insertGo, hl]
  | a :: pre', acc, loc, c, p, rest, s, hne, hf, hl => by
    cases hla : lookupLoc loc a with
    | none => simp [findCat, hla] at hf
    | some v =>
      cases v with
      | str s2 => simp [findCat, hla] at hf
      | cat sub =>
        have hf' : findCat sub pre' = some c := by simpa [findCat, hla] using hf
        have IH := insertGo_inter_conflict key value pre' (acc ++ [a]) sub c p rest s hne hf' hl
        obtain ⟨q, tl, hq⟩ : ∃ q tl, pre' ++ p :: rest = q :: tl := by
          cases pre' with
          | nil => exact ⟨p, rest, rfl⟩
          | cons x xs => exact ⟨x, xs ++ p :: rest, rfl⟩
        rw [List.cons_append, hq, insertGo, hla, ← hq]
        dsimp only
        rw [IH, setKey_self loc a (LocVal.cat sub) hla]
        have hacc : acc ++ [a] ++ pre' ++ [p] = acc ++ (a :: pre') ++ [p] := by simp
        rw [hacc]

/-- Walking onto a nested catalog at the terminal segment throws, names the
full key, and leaves every catalog on the way unchanged. -/
theorem insertGo_term_conflict (key value : String) :
    ∀ (pre acc : List String) (loc c m2 : LocMap) (p : String),
      findCat loc pre = some c → lookupLoc c p = some (LocVal.cat m2) →
      insertGo key value acc (pre ++ [p]) loc =
        (loc, some ("Multiple tranlation keys already exist at \x27" ++ key ++ "\x27"))
  | [], acc, loc, c, m2, p, hf, hl => by
    simp only [findCat, Option.some.injEq] at hf
    subst hf
    simp [insertGo, hl]
  | a :: pre', acc, loc, c, m2, p, hf, hl => by
    cases hla : lookupLoc loc a with
    | none => simp [findCat, hla] at hf
    | some v =>
      cases v with
      | str s2 => simp [findCat, hla] at hf
      | cat sub =>
        have hf' : findCat sub pre' = some c := by simpa [findCat, hla] using hf
        have IH := insertGo_term_conflict key value pre' (acc ++ [a]) sub c m2 p hf' hl
        obtain ⟨q, tl, hq⟩ : ∃ q tl, pre' ++ [p] = q :: tl := by
          cases pre' with
          | nil => exact ⟨p, [], rfl⟩
          | cons x xs => exact ⟨x, xs ++ [p], rfl⟩
        rw [List.cons_append, hq, insertGo, hla, ← hq]
        dsimp only
        rw [IH, setKey_self loc a (LocVal.cat sub) hla]

/-- C2: for every catalog and `/`-delimited key, `insert` fails with an error
naming the conflicting prefix when an intermediate segment of the key already
holds a string, fails with an error naming the full key when the terminal
segment already holds a nested catalog, and a call that fails with such a
structural conflict leaves the catalog unchanged (no partial mutation). -/
theorem insert_conflict_spec :
    (∀ (loc c : LocMap) (key value p s : String) (pre rest : List String),
      splitSlash key = pre ++ p :: rest → rest ≠ [] →
      findCat loc pre = some c → lookupLoc c p = some (LocVal.str s) →
      insert loc key value =
        (loc, some ("String entry already exists at \x27" ++
          joinSlash (pre ++ [p]) ++ "\x27"))) ∧
    (∀ (loc c m2 : LocMap) (key value p : String) (pre : List String),
      splitSlash key = pre ++ [p] → findCat loc pre = some c →
      lookupLoc c p = some (LocVal.cat m2) →
      insert loc key value =
        (loc, some ("Multiple tranlation keys already exist at \x27" ++ key ++ "\x27"))) ∧
    (∀ (loc : LocMap) (key value m : String),
      (insert loc key value).2 = some m → (insert loc key value).1 = loc) := by
  refine ⟨?_, ?_, ?_⟩
  · intro loc c key value p s pre rest hsplit hne hf hl
    rw [insert, hsplit, insertGo_inter_conflict key value pre [] loc c p rest s hne hf hl]
    simp
  · intro loc c m2 key value p pre hsplit hf hl
    rw [insert, hsplit]
    exact insertGo_term_conflict key value pre [] loc c m2 p hf hl
  · intro loc key value m h
    exact insertGo_err_unchanged key value (splitSlash key) [] loc m h

/-- Witness for `insert_conflict_spec`: inserting `a/b` over a leaf `a` names
the prefix `a`; inserting `a` over a nested catalog at `a` names the full key;
both failing calls leave the catalog as it was. -/
theorem insert_conflict_spec_witness :
    insert [("a", LocVal.str "x")] "a/b" "v" =
      ([("a", LocVal.str "x")], some "String entry already exists at \x27a\x27") ∧
    insert [("a", LocVal.cat [("b", LocVal.str "y")])] "a" "v" =
      ([("a", LocVal.cat [("b", LocVal.str "y")])],
        some "Multiple tranlation keys already exist at \x27a\x27") ∧
    (insert [("a", LocVal.str "x")] "a/b" "v").1 = [("a", LocVal.str "x")] :=
  ⟨insert_conflict_spec.1 [("a", LocVal.str "x")] [("a", LocVal.str "x")]
      "a/b" "v" "a" "x" [] ["b"] (by decide) (by decide) rfl rfl,
   insert_conflict_spec.2.1 [("a", LocVal.cat [("b", LocVal.str "y")])]
      [("a", LocVal.cat [("b", LocVal.str "y")])] [("b", LocVal.str "y")]
      "a" "v" "a" [] (by decide) rfl rfl,
   insert_conflict_spec.2.2 [("a", LocVal.str "x")] "a/b" "v"
      "String entry already exists at \x27a\x27" rfl⟩

/-- C10: `insert` raises an error exactly when one of the two
structural-conflict cases holds (a string at an intermediate segment or a
nested catalog at the terminal segment); a key whose terminal segment already
holds a string is silently overwritten with the new value; and re-inserting
the same full key is last-write-wins, not a reported duplicate. -/
theorem insert_overwrite_spec :
    (∀ (loc : LocMap) (key value : String),
      (insert loc key value).2.isSome = conflictSpec loc (splitSlash key)) ∧
    (∀ (loc c : LocMap) (key value p s : String) (pre : List String),
      splitSlash key = pre ++ [p] → findCat loc pre = some c →
      lookupLoc c p = some (LocVal.str s) →
      (insert loc key value).2 = none ∧
      getPath (insert loc key value).1 (splitSlash key) = some (LocVal.str value)) ∧
    (∀ (loc : LocMap) (key v1 v2 : String),
      (insert loc key v1).2 = none →
      (insert (insert loc key v1).1 key v2).2 = none ∧
      getPath (insert (insert loc key v1).1 key v2).1 (splitSlash key) =
        some (LocVal.str v2)) := by
  have hiff : ∀ (loc : LocMap) (key value : String),
      (insert loc key value).2.isSome = conflictSpec loc (splitSlash key) :=
    fun loc key value => insertGo_isSome_eq_conflict key value (splitSlash key) [] loc
  have hnone : ∀ (loc : LocMap) (key value : String),
      conflictSpec loc (splitSlash key) = false → (insert loc key value).2 = none := by
    intro loc key value hcf
    cases h2 : (insert loc key value).2 with
    | none => rfl
    | some m =>
      have hx := hiff loc key value
      rw [h2, hcf] at hx
      simp at hx
  refine ⟨hiff, ?_, ?_⟩
  · intro loc c key value p s pre hsplit hf hl
    have hcf : conflictSpec loc (splitSlash key) = false := by
      rw [hsplit]
      exact conflictSpec_false_of_str pre loc c p s hf hl
    have herr := hnone loc key value hcf
    exact ⟨herr,
      (insertGo_success key value (splitSlash key) [] loc (splitSlash_ne_nil key) herr).1⟩
  · intro loc key v1 v2 h1
    have hs := insertGo_success key v1 (splitSlash key) [] loc (splitSlash_ne_nil key) h1
    have herr2 := hnone (insert loc key v1).1 key v2 hs.2
    exact ⟨herr2,
      (insertGo_success key v2 (splitSlash key) [] (insert loc key v1).1
        (splitSlash_ne_nil key) herr2).1⟩

/-- Witness for `insert_overwrite_spec`: overwriting the leaf `a` succeeds and
stores the new value; inserting `k/l` twice keeps the second value. -/
theorem insert_overwrite_spec_witness :
    (insert [("a", LocVal.str "old")] "a" "new").2.isSome =
      conflictSpec [("a", LocVal.str "old")] (splitSlash "a") ∧
    ((insert [("a", LocVal.str "old")] "a" "new").2 = none ∧
      getPath (insert [("a", LocVal.str "old")] "a" "new").1 (splitSlash "a") =
        some (LocVal.str "new")) ∧
    ((insert (insert ([] : LocMap) "k/l" "x").1 "k/l" "y").2 = none ∧
      getPath (insert (insert ([] : LocMap) "k/l" "x").1 "k/l" "y").1 (splitSlash "k/l") =
        some (LocVal.str "y")) :=
  ⟨insert_overwrite_spec.1 [("a", LocVal.str "old")] "a" "new",
   insert_overwrite_spec.2.1 [("a", LocVal.str "old")] [("a", LocVal.str "old")]
      "a" "new" "a" "old" [] (by decide) rfl rfl,
   insert_overwrite_spec.2.2 [] "k/l" "x" "y" rfl⟩

/-- The walk over an argument/child list is the concatenation of the walks
over its members. -/
theorem collectList_eq_flatMap (fn : Expr → Bool) : ∀ (l : ExprList),
    collectList fn l = (toListE l).flatMap (collect fn)
  | ExprList.nil => by simp [collectList, toListE]
  | ExprList.cons e rest => by
    simp [collectList, toListE, collectList_eq_flatMap fn rest]

/-- The walk over an object literal's members is the concatenation of the
walks over its property-assignment initializers. -/
theorem collectProps_eq_flatMap (fn : Expr → Bool) : ∀ (props : PropList),
    collectProps fn props = (propInitList props).flatMap (collect fn)
  | PropList.nil => by simp [collectProps, propInitList]
  | PropList.cons (ObjProp.assign nm init) rest => by
    simp [collectProps, collectProp, propInitList, collectProps_eq_flatMap fn rest]
  | PropList.cons (ObjProp.otherMember nm) rest => by
    simp [collectProps, collectProp, propInitList, collectProps_eq_flatMap fn rest]

mutual

/-- Every collected node satisfies the predicate. -/
theorem collect_mem (fn : Expr → Bool) : ∀ (e n : Expr), n ∈ collect fn e → fn n = true
  | Expr.strLit s, n, h => by
    cases hf : fn (Expr.strLit s) with
    | true => simp [collect, hf] at h; rw [h]; exact hf
    | false => simp [collect, hf] at h
  | Expr.identExpr s, n, h => by
    cases hf : fn (Expr.identExpr s) with
    | true => simp [collect, hf] at h; rw [h]; exact hf
    | false => simp [collect, hf] at h
  | Expr.objLit props, n, h => by
    cases hf : fn (Expr.objLit props) with
    | true => simp [collect, hf] at h; rw [h]; exact hf
    | false =>
      simp only [collect, hf, Bool.false_eq_true, if_false] at h
      exact collect_mem_props fn props n h
  | Expr.callExpr c args, n, h => by
    cases hf : fn (Expr.callExpr c args) with
    | true => simp [collect, hf] at h; rw [h]; exact hf
    | false =>
      simp only [collect, hf, Bool.false_eq_true, if_false] at h
      exact collect_mem_list fn args n h
  | Expr.otherExpr cs, n, h => by
    cases hf : fn (Expr.otherExpr cs) with
    | true => simp [collect, hf] at h; rw [h]; exact hf
    | false =>
      simp only [collect, hf, Bool.false_eq_true, if_false] at h
      exact collect_mem_list fn cs n h

/-- Every node collected from a child list satisfies the predicate. -/
theorem collect_mem_list (fn : Expr → Bool) :
    ∀ (l : ExprList) (n : Expr), n ∈ collectList fn l → fn n = true
  | ExprList.cons e rest, n, h => by
    rw [collectList] at h
    rcases List.mem_append.mp h with h1 | h2
    · exact collect_mem fn e n h1
    · exact collect_mem_list fn rest n h2

/-- Every node collected from a member list satisfies the predicate. -/
theorem collect_mem_props (fn : Expr → Bool) :
    ∀ (props : PropList) (n : Expr), n ∈ collectProps fn props → fn n = true
  | PropList.cons p rest, n, h => by
    rw [collectProps] at h
    rcases List.mem_append.mp h with h1 | h2
    · exact collect_mem_prop fn p n h1
    · exact collect_mem_props fn rest n h2

/-- Every node collected from one member satisfies the predicate. -/
theorem collect_mem_prop (fn : Expr → Bool) :
    ∀ (p : ObjProp) (n : Expr), n ∈ collectProp fn p → fn n = true
  | ObjProp.assign nm init, n, h => collect_mem fn init n (by rwa [collectProp] at h)
  | ObjProp.otherMember nm, n, h => by rw [collectProp] at h; cases h

end

mutual

/-- The collected nodes are a subsequence of the depth-first enumeration of
the tree: each node contributes at most once and the output keeps source
order. -/
theorem collect_sublist (fn : Expr → Bool) :
    ∀ (e : Expr), (collect fn e).Sublist (preorder e)
  | Expr.strLit s => by
    cases hf : fn (Expr.strLit s) with
    | true => simp [collect, preorder, hf]
    | false => simp [collect, preorder, hf]
  | Expr.identExpr s => by
    cases hf : fn (Expr.identExpr s) with
    | true => simp [collect, preorder, hf]
    | false => simp [collect, preorder, hf]
  | Expr.objLit props => by
    cases hf : fn (Expr.objLit props) with
    | true =>
      simp only [collect, preorder, hf, if_true]
      exact (List.nil_sublist _).cons_cons _
    | false =>
      simp only [collect, preorder, hf, Bool.false_eq_true, if_false]
      exact (collect_sublist_props fn props).cons _
  | Expr.callExpr c args => by
    cases hf : fn (Expr.callExpr c args) with
    | true =>
      simp only [collect, preorder, hf, if_true]
      exact (List.nil_sublist _).cons_cons _
    | false =>
      simp only [collect, preorder, hf, Bool.false_eq_true, if_false]
      exact (collect_sublist_list fn args).cons _
  | Expr.otherExpr cs => by
    cases hf : fn (Expr.otherExpr cs) with
    | true =>
      simp only [collect, preorder, hf, if_true]
      exact (List.nil_sublist _).cons_cons _
    | false =>
      simp only [collect, preorder, hf, Bool.false_eq_true, if_false]
      exact (collect_sublist_list fn cs).cons _

/-- Subsequence property over a child list. -/
theorem collect_sublist_list (fn : Expr → Bool) :
    ∀ (l : ExprList), (collectList fn l).Sublist (preorderList l)
  | ExprList.nil => by rw [collectList, preorderList]
  | ExprList.cons e rest => by
    rw [collectList, preorderList]
    exact (collect_sublist fn e).append (collect_sublist_list fn rest)

/-- Subsequence property over a member list. -/
theorem collect_sublist_props (fn : Expr → Bool) :
    ∀ (props : PropList), (collectProps fn props).Sublist (preorderProps props)
  | PropList.nil => by rw [collectProps, preorderProps]
  | PropList.cons p rest => by
    rw [collectProps, preorderProps]
    exact (collect_sublist_prop fn p).append (collect_sublist_props fn rest)

/-- Subsequence property over one member. -/
theorem collect_sublist_prop (fn : Expr → Bool) :
    ∀ (p : ObjProp), (collectProp fn p).Sublist (preorderProp p)
  | ObjProp.assign nm init => by
    rw [collectProp, preorderProp]
    exact collect_sublist fn init
  | ObjProp.otherMember nm => by rw [collectProp, preorderProp]

end

/-- A matched node is collected and its subtree is not descended into. -/
theorem collect_matched (fn : Expr → Bool) (e : Expr) (h : fn e = true) :
    collect fn e = [e] := by
  rw [collect.eq_def, if_pos h]

/-- An unmatched node contributes the walks over its children, in child
order. -/
theorem collect_unmatched (fn : Expr → Bool) (e : Expr) (h : fn e = false) :
    collect fn e = (children e).flatMap (collect fn) := by
  cases e <;>
    simp [collect, h, children, collectList_eq_flatMap, collectProps_eq_flatMap]

/-- C7: the collector collects a matched node without descending into its
subtree, otherwise recurses into the node's children in order, collects only
matching nodes, and its output is a subsequence of the depth-first
source-order enumeration of the tree, so every reachable node is considered
exactly once and matches are reported in source order; being a Lean function
of `(fn, e)`, it is deterministic. -/
theorem collect_spec :
    (∀ (fn : Expr → Bool) (e : Expr), fn e = true → collect fn e = [e]) ∧
    (∀ (fn : Expr → Bool) (e : Expr), fn e = false →
      collect fn e = (children e).flatMap (collect fn)) ∧
    (∀ (fn : Expr → Bool) (e n : Expr), n ∈ collect fn e → fn n = true) ∧
    (∀ (fn : Expr → Bool) (e : Expr), (collect fn e).Sublist (preorder e)) :=
  ⟨collect_matched, collect_unmatched, collect_mem, collect_sublist⟩

/-- Witness for `collect_spec` on concrete trees: a matched call is collected
as a singleton, an unmatched wrapper defers to its children, a member of the
output matches the predicate, and the output is a subsequence of the preorder
enumeration. -/
theorem collect_spec_witness :
    collect isLocalizeCall
        (Expr.callExpr "nls.localize" (ExprList.cons (Expr.strLit "k") ExprList.nil)) =
      [Expr.callExpr "nls.localize" (ExprList.cons (Expr.strLit "k") ExprList.nil)] ∧
    collect isLocalizeCall (Expr.otherExpr (ExprList.cons (Expr.strLit "k") ExprList.nil)) =
      (children (Expr.otherExpr (ExprList.cons (Expr.strLit "k") ExprList.nil))).flatMap
        (collect isLocalizeCall) ∧
    isLocalizeCall (Expr.callExpr "nls.localize" ExprList.nil) = true ∧
    (collect isLocalizeCall (Expr.strLit "k")).Sublist (preorder (Expr.strLit "k")) :=
  ⟨collect_spec.1 isLocalizeCall _ rfl,
   collect_spec.2.1 isLocalizeCall _ rfl,
   collect_spec.2.2.1 isLocalizeCall (Expr.callExpr "nls.localize" ExprList.nil)
      (Expr.callExpr "nls.localize" ExprList.nil) (List.Mem.head _),
   collect_spec.2.2.2 isLocalizeCall _⟩

/-- C1 counterexample: `extractString` is applied to argument 0 as well, so
the KEY is unescaped exactly like the value: at the key literal `a\nb` the
extracted pair's key is `a` newline `b`, not the unchanged `a\nb` the claim
requires. -/
theorem extractFromLocalizeCall_key_counterexample :
    extractFromLocalizeCall (Expr.callExpr "nls.localize"
        (ExprList.cons (Expr.strLit "a\\nb")
          (ExprList.cons (Expr.strLit "v") ExprList.nil))) =
      Except.ok ("a\nb", "v") ∧
    unescapeString "a\\nb" ≠ "a\\nb" ∧
    extractFromLocalizeCall (Expr.callExpr "nls.localize"
        (ExprList.cons (Expr.strLit "a\\nb")
          (ExprList.cons (Expr.strLit "v") ExprList.nil))) ≠
      Except.ok ("a\\nb", "v") := by
  refine ⟨rfl, by decide, ?_⟩
  intro h
  have h4 := Except.ok.inj ((rfl.symm.trans h :
    (Except.ok (("a\nb" : String), ("v" : String)) : Except TSError (String × String)) =
      Except.ok ("a\\nb", "v")))
  exact absurd (congrArg Prod.fst h4) (by decide)

/-- C1 as amended: a Pattern-A call whose first two arguments are string
literals extracts exactly the pair `(unescape(key), unescape(value))` — the
key is unescaped just like the value; fewer than two arguments, a non-literal
argument 0, or a non-literal argument 1 each produce an error naming the
expected shape and carrying the offending node (whose source location prefixes
the reported message), and no pair is produced. -/
theorem extractFromLocalizeCall_spec :
    (∀ (c k v : String) (rest : ExprList),
      extractFromLocalizeCall (Expr.callExpr c (ExprList.cons (Expr.strLit k)
          (ExprList.cons (Expr.strLit v) rest))) =
        Except.ok (unescapeString k, unescapeString v)) ∧
    (∀ (c : String) (args : ExprList), args.length < 2 →
      extractFromLocalizeCall (Expr.callExpr c args) =
        Except.error ⟨"Localize call needs at least 2 arguments",
          ErrNode.exprNode (Expr.callExpr c args)⟩) ∧
    (∀ (c : String) (a0 a1 : Expr) (rest : ExprList), isStringLiteral a0 = false →
      extractFromLocalizeCall (Expr.callExpr c (ExprList.cons a0
          (ExprList.cons a1 rest))) =
        Except.error ⟨"\x27" ++ getText a0 ++ "\x27 is not a string constant",
          ErrNode.exprNode a0⟩) ∧
    (∀ (c k : String) (a1 : Expr) (rest : ExprList), isStringLiteral a1 = false →
      extractFromLocalizeCall (Expr.callExpr c (ExprList.cons (Expr.strLit k)
          (ExprList.cons a1 rest))) =
        Except.error ⟨"\x27" ++ getText a1 ++ "\x27 is not a string constant",
          ErrNode.exprNode a1⟩) := by
  refine ⟨fun c k v rest => rfl, ?_, ?_, ?_⟩
  · intro c args h
    cases args with
    | nil => rfl
    | cons a0 t =>
      cases t with
      | nil => rfl
      | cons a1 t2 => simp [ExprList.length] at h; omega
  · intro c a0 a1 rest h0
    cases a0 <;> simp [isStringLiteral] at h0 <;> rfl
  · intro c k a1 rest h1
    cases a1 <;> simp [isStringLiteral] at h1 <;> rfl

/-- Witness for `extractFromLocalizeCall_spec`: a valid call yields the pair
with both the key and the value unescaped; a one-argument call, a non-literal
key, and a non-literal value each yield the corresponding error. -/
theorem extractFromLocalizeCall_spec_witness :
    extractFromLocalizeCall (Expr.callExpr "nls.localize"
        (ExprList.cons (Expr.strLit "p\\tq") (ExprList.cons (Expr.strLit "b\\nc") ExprList.nil))) =
      Except.ok ("p\tq", "b\nc") ∧
    extractFromLocalizeCall (Expr.callExpr "nls.localize"
        (ExprList.cons (Expr.strLit "a") ExprList.nil)) =
      Except.error ⟨"Localize call needs at least 2 arguments",
        ErrNode.exprNode (Expr.callExpr "nls.localize"
          (ExprList.cons (Expr.strLit "a") ExprList.nil))⟩ ∧
    extractFromLocalizeCall (Expr.callExpr "nls.localize"
        (ExprList.cons (Expr.identExpr "x") (ExprList.cons (Expr.strLit "b") ExprList.nil))) =
      Except.error ⟨"\x27x\x27 is not a string constant",
        ErrNode.exprNode (Expr.identExpr "x")⟩ ∧
    extractFromLocalizeCall (Expr.callExpr "nls.localize"
        (ExprList.cons (Expr.strLit "a") (ExprList.cons (Expr.identExpr "y") ExprList.nil))) =
      Except.error ⟨"\x27y\x27 is not a string constant",
        ErrNode.exprNode (Expr.identExpr "y")⟩ :=
  ⟨extractFromLocalizeCall_spec.1 "nls.localize" "p\\tq" "b\\nc" ExprList.nil,
   extractFromLocalizeCall_spec.2.1 "nls.localize"
      (ExprList.cons (Expr.strLit "a") ExprList.nil) (by decide),
   extractFromLocalizeCall_spec.2.2.1 "nls.localize" (Expr.identExpr "x")
      (Expr.strLit "b") ExprList.nil rfl,
   extractFromLocalizeCall_spec.2.2.2 "nls.localize" "a" (Expr.identExpr "y")
      ExprList.nil rfl⟩

/-- C4 counterexample: a successfully extracted Pattern-B call site where the
category key (argument 2, `key.category`) is present and the object literal's
`category` property is present with value `""`, yet the result omits the
category pair — so the pair is not emitted "exactly when both are present":
the code additionally requires both to be non-empty (JS-truthy). -/
theorem extractLocalizedCommand_category_counterexample :
    extractFromLocalizedCommandCall (Expr.callExpr "Command.toLocalizedCommand"
        (ExprList.cons (Expr.objLit
          (PropList.cons (ObjProp.assign (PropName.identName "id") (Expr.strLit "cmd.id"))
            (PropList.cons (ObjProp.assign (PropName.identName "label") (Expr.strLit "Label"))
              (PropList.cons (ObjProp.assign (PropName.identName "category") (Expr.strLit ""))
                PropList.nil))))
          (ExprList.cons (Expr.strLit "key.label")
            (ExprList.cons (Expr.strLit "key.category") ExprList.nil)))) =
      Except.ok ⟨("key.label", "Label"), none⟩ ∧
    buildPropMap
        (PropList.cons (ObjProp.assign (PropName.identName "id") (Expr.strLit "cmd.id"))
          (PropList.cons (ObjProp.assign (PropName.identName "label") (Expr.strLit "Label"))
            (PropList.cons (ObjProp.assign (PropName.identName "category") (Expr.strLit ""))
              PropList.nil))) =
      Except.ok [("id", "cmd.id"), ("label", "Label"), ("category", "")] ∧
    computeCategoryKey (ExprList.cons (Expr.strLit "key.label")
        (ExprList.cons (Expr.strLit "key.category") ExprList.nil)) =
      Except.ok (some "key.category") :=
  ⟨rfl, rfl, rfl⟩

/-- C4 as amended: for a successfully extracted Pattern-B call, the result
always carries the label pair, and carries the category pair exactly when both
the category key (from argument 2) and the `category` property's value are
present and non-empty (JS-truthy); when either is absent, empty, or the
truthiness test fails, the pair is omitted and no error is raised. -/
theorem extractLocalizedCommand_category_spec :
    ∀ (c : String) (props : PropList) (restArgs : ExprList)
      (pm : List (String × String)) (lk ck : Option String),
      buildPropMap props = Except.ok pm →
      computeLabelKey pm restArgs = Except.ok lk →
      computeCategoryKey restArgs = Except.ok ck →
      jsTruthy lk = true → jsTruthy (mapGet pm "label") = true →
      extractFromLocalizedCommandCall
          (Expr.callExpr c (ExprList.cons (Expr.objLit props) restArgs)) =
        Except.ok ⟨(lk.getD "", (mapGet pm "label").getD ""),
          if jsTruthy ck && jsTruthy (mapGet pm "category") then
            some (ck.getD "", (mapGet pm "category").getD "")
          else none⟩ := by
  intro c props restArgs pm lk ck hpm hlk hck htl htlab
  simp only [extractFromLocalizedCommandCall, hpm, hlk, hck, htl, htlab]
  simp

/-- Witness for `extractLocalizedCommand_category_spec`: with both the
category key and a non-empty `category` property the pair is emitted; with no
argument 2 the pair is omitted without error. -/
theorem extractLocalizedCommand_category_spec_witness :
    extractFromLocalizedCommandCall (Expr.callExpr "Command.toLocalizedCommand"
        (ExprList.cons (Expr.objLit
          (PropList.cons (ObjProp.assign (PropName.identName "id") (Expr.strLit "K"))
            (PropList.cons (ObjProp.assign (PropName.identName "label") (Expr.strLit "L"))
              (PropList.cons (ObjProp.assign (PropName.identName "category") (Expr.strLit "C"))
                PropList.nil))))
          (ExprList.cons (Expr.strLit "k2")
            (ExprList.cons (Expr.strLit "C2") ExprList.nil)))) =
      Except.ok ⟨("k2", "L"), some ("C2", "C")⟩ ∧
    extractFromLocalizedCommandCall (Expr.callExpr "Command.toLocalizedCommand"
        (ExprList.cons (Expr.objLit
          (PropList.cons (ObjProp.assign (PropName.identName "id") (Expr.strLit "K"))
            (PropList.cons (ObjProp.assign (PropName.identName "label") (Expr.strLit "L"))
              (PropList.cons (ObjProp.assign (PropName.identName "category") (Expr.strLit "C"))
                PropList.nil))))
          (ExprList.cons (Expr.strLit "k2") ExprList.nil))) =
      Except.ok ⟨("k2", "L"), none⟩ := by
  constructor
  · exact extractLocalizedCommand_category_spec "Command.toLocalizedCommand" _ _
      [("id", "K"), ("label", "L"), ("category", "C")] (some "k2") (some "C2")
      rfl rfl rfl rfl rfl
  · exact extractLocalizedCommand_category_spec "Command.toLocalizedCommand" _ _
      [("id", "K"), ("label", "L"), ("category", "C")] (some "k2") none
      rfl rfl rfl rfl rfl

/-- C9: the Pattern-B label key defaults to the object's `id` property value;
a present argument 1 that unescapes to a non-empty string overrides it; a
present argument 1 that unescapes to the empty string is a falsy override that
falls back to `id` — in fact a call with an explicit empty-string argument 1
extracts identically to the same call with argument 1 absent (falsy
coalescing, not an absence check). -/
theorem labelKey_fallback_spec :
    (∀ (pm : List (String × String)),
      computeLabelKey pm ExprList.nil = Except.ok (mapGet pm "id")) ∧
    (∀ (pm : List (String × String)) (a1 : Expr) (rest : ExprList) (s : String),
      extractString a1 = Except.ok s → s ≠ "" →
      computeLabelKey pm (ExprList.cons a1 rest) = Except.ok (some s)) ∧
    (∀ (pm : List (String × String)) (a1 : Expr) (rest : ExprList),
      extractString a1 = Except.ok "" →
      computeLabelKey pm (ExprList.cons a1 rest) = Except.ok (mapGet pm "id")) ∧
    (∀ (c : String) (props : PropList),
      (extractFromLocalizedCommandCall (Expr.callExpr c (ExprList.cons (Expr.objLit props)
          (ExprList.cons (Expr.strLit "") ExprList.nil)))).mapError TSError.message =
        (extractFromLocalizedCommandCall (Expr.callExpr c
          (ExprList.cons (Expr.objLit props) ExprList.nil))).mapError TSError.message) := by
  refine ⟨fun pm => rfl, ?_, ?_, ?_⟩
  · intro pm a1 rest s hs hne
    simp [computeLabelKey, hs, hne]
  · intro pm a1 rest hs
    simp [computeLabelKey, hs]
  · intro c props
    simp only [extractFromLocalizedCommandCall]
    cases hb : buildPropMap props with
    | error e => rfl
    | ok pm =>
      have h1 : computeLabelKey pm (ExprList.cons (Expr.strLit "") ExprList.nil) =
          Except.ok (mapGet pm "id") := rfl
      have h2 : computeLabelKey pm ExprList.nil = Except.ok (mapGet pm "id") := rfl
      simp only [h1, h2, computeCategoryKey]
      by_cases hid : jsTruthy (mapGet pm "id") = false
      · simp [hid, Except.mapError]
      · by_cases hlab : jsTruthy (mapGet pm "label") = false
        · simp [hid, hlab, Except.mapError]
        · simp [hid, hlab]

/-- Witness for `labelKey_fallback_spec`: with `id` present, an absent
argument 1, a non-empty argument 1, and an empty argument 1 behave as
specified, and the empty-argument call equals the absent-argument call. -/
theorem labelKey_fallback_spec_witness :
    computeLabelKey [("id", "K")] ExprList.nil = Except.ok (some "K") ∧
    computeLabelKey [("id", "K")] (ExprList.cons (Expr.strLit "x") ExprList.nil) =
      Except.ok (some "x") ∧
    computeLabelKey [("id", "K")] (ExprList.cons (Expr.strLit "") ExprList.nil) =
      Except.ok (some "K") ∧
    (extractFromLocalizedCommandCall (Expr.callExpr "Command.toLocalizedCommand"
        (ExprList.cons (Expr.objLit
          (PropList.cons (ObjProp.assign (PropName.identName "id") (Expr.strLit "K"))
            (PropList.cons (ObjProp.assign (PropName.identName "label") (Expr.strLit "L"))
              PropList.nil)))
          (ExprList.cons (Expr.strLit "") ExprList.nil)))).mapError TSError.message =
      (extractFromLocalizedCommandCall (Expr.callExpr "Command.toLocalizedCommand"
        (ExprList.cons (Expr.objLit
          (PropList.cons (ObjProp.assign (PropName.identName "id") (Expr.strLit "K"))
            (PropList.cons (ObjProp.assign (PropName.identName "label") (Expr.strLit "L"))
              PropList.nil)))
          ExprList.nil))).mapError TSError.message :=
  ⟨labelKey_fallback_spec.1 [("id", "K")],
   labelKey_fallback_spec.2.1 [("id", "K")] (Expr.strLit "x") ExprList.nil "x" rfl
      (by decide),
   labelKey_fallback_spec.2.2.1 [("id", "K")] (Expr.strLit "") ExprList.nil rfl,
   labelKey_fallback_spec.2.2.2 "Command.toLocalizedCommand" _⟩

/-- Key-wise behaviour of the deep merge: a key absent from the overlay keeps
the base's value; a key of the overlay gets the merge of the base's value (if
any) with the overlay's value. Requires the overlay's keys to be duplicate
free, as the keys of a JS object are. -/
theorem deepmergeMap_lookup : ∀ (o b : LocMap) (k : String),
    (o.map Prod.fst).Nodup →
    lookupLoc (deepmergeMap b o) k =
      match lookupLoc o k with
      | none => lookupLoc b k
      | some v => some (deepmergeVal (lookupLoc b k) v)
  | [], b, k, _ => by simp [deepmergeMap, lookupLoc]
  | (k0, v0) :: rest, b, k, hnd => by
    obtain ⟨hk0, hrest⟩ : k0 ∉ rest.map Prod.fst ∧ (rest.map Prod.fst).Nodup := by
      simpa [List.nodup_cons] using hnd
    rw [deepmergeMap,
      deepmergeMap_lookup rest (setKey b k0 (deepmergeVal (lookupLoc b k0) v0)) k hrest]
    by_cases hk : k = k0
    · subst hk
      rw [lookup_eq_none_of_notMem rest k hk0, lookup_setKey]
      simp [lookupLoc]
    · have hne : ¬k0 = k := fun e => hk e.symm
      have h2 : lookupLoc ((k0, v0) :: rest) k = lookupLoc rest k := by
        simp [lookupLoc, hne]
      have h3 : lookupLoc (setKey b k0 (deepmergeVal (lookupLoc b k0) v0)) k =
          lookupLoc b k := by
        rw [lookup_setKey]
        simp [hk]
      rw [h2, h3]

/-- C5: the deep merge is total (it never raises a conflict): for every key
present in either operand, nested catalogs merge recursively and the later
operand's value wins otherwise, in particular at leaves; merging
`{a:"1", b:{c:"2"}}` over `{a:"0", b:{d:"3"}}` yields
`{a:"1", b:{c:"2", d:"3"}}`; and in merge mode the pre-existing on-disk
catalog is the base with the newly extracted catalog layered on top. -/
theorem deepmerge_spec :
    (∀ (o b : LocMap) (k : String), (o.map Prod.fst).Nodup →
      lookupLoc (deepmergeMap b o) k =
        match lookupLoc o k with
        | none => lookupLoc b k
        | some v => some (deepmergeVal (lookupLoc b k) v)) ∧
    (∀ (sub1 sub2 : LocMap),
      deepmergeVal (some (LocVal.cat sub1)) (LocVal.cat sub2) =
        LocVal.cat (deepmergeMap sub1 sub2)) ∧
    (∀ (old : Option LocVal) (s : String),
      deepmergeVal old (LocVal.str s) = LocVal.str s) ∧
    (lookupLoc (deepmergeMap [("a", LocVal.str "0"), ("b", LocVal.cat [("d", LocVal.str "3")])]
        [("a", LocVal.str "1"), ("b", LocVal.cat [("c", LocVal.str "2")])]) "a" =
      some (LocVal.str "1") ∧
     getPath (deepmergeMap [("a", LocVal.str "0"), ("b", LocVal.cat [("d", LocVal.str "3")])]
        [("a", LocVal.str "1"), ("b", LocVal.cat [("c", LocVal.str "2")])]) ["b", "c"] =
      some (LocVal.str "2") ∧
     getPath (deepmergeMap [("a", LocVal.str "0"), ("b", LocVal.cat [("d", LocVal.str "3")])]
        [("a", LocVal.str "1"), ("b", LocVal.cat [("c", LocVal.str "2")])]) ["b", "d"] =
      some (LocVal.str "3")) ∧
    (∀ (existing aggregate : LocMap),
      applyMergeMode true (some existing) aggregate = deepmergeMap existing aggregate) := by
  refine ⟨deepmergeMap_lookup, fun sub1 sub2 => rfl, ?_, ⟨rfl, rfl, rfl⟩, fun e a => rfl⟩
  intro old s
  cases old with
  | none => rfl
  | some v => cases v <;> rfl

/-- Witness for `deepmerge_spec`: the key-wise characterization evaluated on
the spec's own merge example, at an overlay key and at a base-only key. -/
theorem deepmerge_spec_witness :
    lookupLoc (deepmergeMap [("a", LocVal.str "0")] [("a", LocVal.str "1")]) "a" =
      some (deepmergeVal (lookupLoc [("a", LocVal.str "0")] "a") (LocVal.str "1")) ∧
    lookupLoc (deepmergeMap [("x", LocVal.str "0")] [("a", LocVal.str "1")]) "x" =
      lookupLoc [("x", LocVal.str "0")] "x" :=
  ⟨deepmerge_spec.1 [("a", LocVal.str "1")] [("a", LocVal.str "0")] "a" (by decide),
   deepmerge_spec.1 [("a", LocVal.str "1")] [("x", LocVal.str "0")] "x" (by decide)⟩

/-- C6: every per-call-site error — an extraction error of either pattern, or
a structural-conflict error thrown by `insert` on the Pattern-A loop, on a
command's label insertion (which skips that command's category insertion, both
being in one `try` block), or on a command's category insertion — is recorded
in the sink and skipped, the catalog is left untouched by the failing step,
and the remaining call sites keep being processed; concretely, a file with one
well-formed `nls.localize` call and one single-argument call yields the
well-formed pair and exactly one error record carrying the malformed call's
node (whose source location the real logger prints) without aborting, and a
file whose second call hits an insertion conflict records exactly that
conflict while the calls before and after it are still extracted. -/
theorem extract_error_isolation_spec :
    (∀ (options : ExtractionOptions) (call : Expr) (rest : List Expr)
        (loc : LocMap) (errs : List RecError) (e : TSError),
      extractFromLocalizeCall call = Except.error e →
      processLocalizeCalls options (call :: rest) loc errs =
        processLocalizeCalls options rest loc (errs ++ [RecError.tsErr e])) ∧
    (∀ (options : ExtractionOptions) (call : Expr) (rest : List Expr)
        (loc : LocMap) (errs : List RecError) (e : TSError),
      extractFromLocalizedCommandCall call = Except.error e →
      processCommandCalls options (call :: rest) loc errs =
        processCommandCalls options rest loc (errs ++ [RecError.tsErr e])) ∧
    (∀ (options : ExtractionOptions) (call : Expr) (rest : List Expr)
        (loc : LocMap) (errs : List RecError) (k v msg : String),
      extractFromLocalizeCall call = Except.ok (k, v) →
      isExcluded options k = false →
      (insert loc k v).2 = some msg →
      processLocalizeCalls options (call :: rest) loc errs =
        processLocalizeCalls options rest loc (errs ++ [RecError.insertErr msg])) ∧
    (∀ (options : ExtractionOptions) (loc : LocMap) (errs : List RecError)
        (cmd : LocalizedCommand) (msg : String),
      isExcluded options cmd.label.1 = false →
      (insert loc cmd.label.1 cmd.label.2).2 = some msg →
      processCommandCall options loc errs cmd =
        (loc, errs ++ [RecError.insertErr msg])) ∧
    (∀ (options : ExtractionOptions) (loc : LocMap) (errs : List RecError)
        (ck cv msg : String),
      isExcluded options ck = false →
      (insert loc ck cv).2 = some msg →
      processCategoryPart options loc errs (some (ck, cv)) =
        (loc, errs ++ [RecError.insertErr msg])) ∧
    (∀ (options : ExtractionOptions) (call : Expr) (rest : List Expr)
        (loc : LocMap) (errs : List RecError) (cmd : LocalizedCommand),
      extractFromLocalizedCommandCall call = Except.ok cmd →
      processCommandCalls options (call :: rest) loc errs =
        processCommandCalls options rest (processCommandCall options loc errs cmd).1
          (processCommandCall options loc errs cmd).2) ∧
    extractFromFile ⟨"", "", none, none, none, false⟩
        (Expr.otherExpr (ExprList.cons
          (Expr.callExpr "nls.localize" (ExprList.cons (Expr.strLit "a")
            (ExprList.cons (Expr.strLit "b") ExprList.nil)))
          (ExprList.cons
            (Expr.callExpr "nls.localize" (ExprList.cons (Expr.strLit "c") ExprList.nil))
            ExprList.nil))) =
      ([("a", LocVal.str "b")],
       [RecError.tsErr ⟨"Localize call needs at least 2 arguments",
          ErrNode.exprNode (Expr.callExpr "nls.localize"
            (ExprList.cons (Expr.strLit "c") ExprList.nil))⟩]) ∧
    extractFromFile ⟨"", "", none, none, none, false⟩
        (Expr.otherExpr (ExprList.cons
          (Expr.callExpr "nls.localize" (ExprList.cons (Expr.strLit "a")
            (ExprList.cons (Expr.strLit "x") ExprList.nil)))
          (ExprList.cons
            (Expr.callExpr "nls.localize" (ExprList.cons (Expr.strLit "a/b")
              (ExprList.cons (Expr.strLit "y") ExprList.nil)))
            (ExprList.cons
              (Expr.callExpr "nls.localize" (ExprList.cons (Expr.strLit "c")
                (ExprList.cons (Expr.strLit "z") ExprList.nil)))
              ExprList.nil)))) =
      ([("a", LocVal.str "x"), ("c", LocVal.str "z")],
       [RecError.insertErr "String entry already exists at \x27a\x27"]) := by
  refine ⟨?_, ?_, ?_, ?_, ?_, ?_, rfl, rfl⟩
  · intro options call rest loc errs e h
    simp [processLocalizeCalls, h]
  · intro options call rest loc errs e h
    simp [processCommandCalls, h]
  · intro options call rest loc errs k v msg hok hex hins
    have h1 : (insert loc k v).1 = loc :=
      insertGo_err_unchanged k v (splitSlash k) [] loc msg hins
    have hpair : insert loc k v = (loc, some msg) := Prod.ext h1 hins
    simp [processLocalizeCalls, hok, hex, hpair]
  · intro options loc errs cmd msg hex hins
    have h1 : (insert loc cmd.label.1 cmd.label.2).1 = loc :=
      insertGo_err_unchanged cmd.label.1 cmd.label.2 (splitSlash cmd.label.1) [] loc msg hins
    have hpair : insert loc cmd.label.1 cmd.label.2 = (loc, some msg) := Prod.ext h1 hins
    simp [processCommandCall, hex, hpair]
  · intro options loc errs ck cv msg hex hins
    have h1 : (insert loc ck cv).1 = loc :=
      insertGo_err_unchanged ck cv (splitSlash ck) [] loc msg hins
    have hpair : insert loc ck cv = (loc, some msg) := Prod.ext h1 hins
    simp [processCategoryPart, hex, hpair]
  · intro options call rest loc errs cmd hok
    simp [processCommandCalls, hok]

/-- Witness for `extract_error_isolation_spec`: a malformed Pattern-A call and
a malformed Pattern-B call each append exactly one error record; an insertion
conflict on the Pattern-A loop, on a command's label pair, and on a command's
category pair each append exactly one record while the catalog stays `{a:"x"}`;
and the command loop goes on after a successfully extracted call. -/
theorem extract_error_isolation_spec_witness :
    processLocalizeCalls ⟨"", "", none, none, none, false⟩
        [Expr.callExpr "nls.localize" (ExprList.cons (Expr.strLit "c") ExprList.nil)]
        [] [] =
      processLocalizeCalls ⟨"", "", none, none, none, false⟩ []
        [] ([] ++ [RecError.tsErr ⟨"Localize call needs at least 2 arguments",
          ErrNode.exprNode (Expr.callExpr "nls.localize"
            (ExprList.cons (Expr.strLit "c") ExprList.nil))⟩]) ∧
    processCommandCalls ⟨"", "", none, none, none, false⟩
        [Expr.callExpr "Command.toLocalizedCommand" ExprList.nil] [] [] =
      processCommandCalls ⟨"", "", none, none, none, false⟩ []
        [] ([] ++ [RecError.tsErr ⟨"Localize call needs at least 2 arguments",
          ErrNode.exprNode (Expr.callExpr "Command.toLocalizedCommand" ExprList.nil)⟩]) ∧
    processLocalizeCalls ⟨"", "", none, none, none, false⟩
        [Expr.callExpr "nls.localize" (ExprList.cons (Expr.strLit "a/b")
          (ExprList.cons (Expr.strLit "y") ExprList.nil))]
        [("a", LocVal.str "x")] [] =
      processLocalizeCalls ⟨"", "", none, none, none, false⟩ []
        [("a", LocVal.str "x")]
        ([] ++ [RecError.insertErr "String entry already exists at \x27a\x27"]) ∧
    processCommandCall ⟨"", "", none, none, none, false⟩ [("a", LocVal.str "x")] []
        ⟨("a/b", "L"), none⟩ =
      ([("a", LocVal.str "x")],
        [] ++ [RecError.insertErr "String entry already exists at \x27a\x27"]) ∧
    processCategoryPart ⟨"", "", none, none, none, false⟩ [("a", LocVal.str "x")] []
        (some ("a/b", "C")) =
      ([("a", LocVal.str "x")],
        [] ++ [RecError.insertErr "String entry already exists at \x27a\x27"]) ∧
    processCommandCalls ⟨"", "", none, none, none, false⟩
        [Expr.callExpr "Command.toLocalizedCommand" (ExprList.cons (Expr.objLit
          (PropList.cons (ObjProp.assign (PropName.identName "id") (Expr.strLit "K"))
            (PropList.cons (ObjProp.assign (PropName.identName "label") (Expr.strLit "L"))
              PropList.nil))) ExprList.nil)] [] [] =
      processCommandCalls ⟨"", "", none, none, none, false⟩ []
        (processCommandCall ⟨"", "", none, none, none, false⟩ [] []
          ⟨("K", "L"), none⟩).1
        (processCommandCall ⟨"", "", none, none, none, false⟩ [] []
          ⟨("K", "L"), none⟩).2 :=
  ⟨extract_error_isolation_spec.1 ⟨"", "", none, none, none, false⟩
      (Expr.callExpr "nls.localize" (ExprList.cons (Expr.strLit "c") ExprList.nil))
      [] [] [] _ rfl,
   extract_error_isolation_spec.2.1 ⟨"", "", none, none, none, false⟩
      (Expr.callExpr "Command.toLocalizedCommand" ExprList.nil)
      [] [] [] _ rfl,
   extract_error_isolation_spec.2.2.1 ⟨"", "", none, none, none, false⟩
      (Expr.callExpr "nls.localize" (ExprList.cons (Expr.strLit "a/b")
        (ExprList.cons (Expr.strLit "y") ExprList.nil)))
      [] [("a", LocVal.str "x")] [] "a/b" "y"
      "String entry already exists at \x27a\x27" rfl rfl rfl,
   extract_error_isolation_spec.2.2.2.1 ⟨"", "", none, none, none, false⟩
      [("a", LocVal.str "x")] [] ⟨("a/b", "L"), none⟩
      "String entry already exists at \x27a\x27" rfl rfl,
   extract_error_isolation_spec.2.2.2.2.1 ⟨"", "", none, none, none, false⟩
      [("a", LocVal.str "x")] [] "a/b" "C"
      "String entry already exists at \x27a\x27" rfl rfl,
   extract_error_isolation_spec.2.2.2.2.2.1 ⟨"", "", none, none, none, false⟩
      (Expr.callExpr "Command.toLocalizedCommand" (ExprList.cons (Expr.objLit
        (PropList.cons (ObjProp.assign (PropName.identName "id") (Expr.strLit "K"))
          (PropList.cons (ObjProp.assign (PropName.identName "label") (Expr.strLit "L"))
            PropList.nil))) ExprList.nil))
      [] [] [] ⟨("K", "L"), none⟩ rfl⟩

/-- C8: a key is excluded exactly when a non-empty `exclude` is configured (an
empty string is falsy in JS, hence excludes nothing) and the key starts with
it; an excluded extracted key is dropped with no insertion and no error, for
the Pattern-A loop, for a command's label pair, and for a command's category
pair, so the failing/skipped call contributes nothing to the catalog. -/
theorem exclude_spec :
    (∀ (options : ExtractionOptions) (key : String),
      isExcluded options key = true ↔
        ∃ p, options.exclude = some p ∧ p ≠ "" ∧ strStarts key p = true) ∧
    (∀ (options : ExtractionOptions) (call : Expr) (rest : List Expr)
        (loc : LocMap) (errs : List RecError) (k v : String),
      extractFromLocalizeCall call = Except.ok (k, v) → isExcluded options k = true →
      processLocalizeCalls options (call :: rest) loc errs =
        processLocalizeCalls options rest loc errs) ∧
    (∀ (options : ExtractionOptions) (loc : LocMap) (errs : List RecError)
        (cmd : LocalizedCommand),
      isExcluded options cmd.label.1 = true →
      processCommandCall options loc errs cmd =
        processCategoryPart options loc errs cmd.category) ∧
    (∀ (options : ExtractionOptions) (loc : LocMap) (errs : List RecError)
        (ck cv : String),
      isExcluded options ck = true →
      processCategoryPart options loc errs (some (ck, cv)) = (loc, errs)) := by
  refine ⟨?_, ?_, ?_, ?_⟩
  · intro options key
    constructor
    · intro h
      cases hop : options.exclude with
      | none => simp [isExcluded, hop] at h
      | some p =>
        by_cases hp : p = ""
        · simp [isExcluded, hop, hp] at h
        · refine ⟨p, rfl, hp, ?_⟩
          simpa [isExcluded, hop, hp] using h
    · rintro ⟨p, hop, hp, hs⟩
      simp [isExcluded, hop, hp, hs]
  · intro options call rest loc errs k v hok hex
    simp [processLocalizeCalls, hok, hex]
  · intro options loc errs cmd hex
    rw [processCommandCall, if_pos hex]
  · intro options loc errs ck cv hex
    rw [processCategoryPart, if_pos hex]

/-- Witness for `exclude_spec` with `exclude = "theia"`: the key `theia/x` is
excluded, an extracted pair under it is dropped with no insertion and no
error, and the same holds for a command's label and category keys. -/
theorem exclude_spec_witness :
    isExcluded ⟨"", "", some "theia", none, none, false⟩ "theia/x" = true ∧
    processLocalizeCalls ⟨"", "", some "theia", none, none, false⟩
        [Expr.callExpr "nls.localize" (ExprList.cons (Expr.strLit "theia/x")
          (ExprList.cons (Expr.strLit "v") ExprList.nil))] [] [] =
      processLocalizeCalls ⟨"", "", some "theia", none, none, false⟩ [] [] [] ∧
    processCommandCall ⟨"", "", some "theia", none, none, false⟩ [] []
        ⟨("theia/cmd", "L"), none⟩ =
      processCategoryPart ⟨"", "", some "theia", none, none, false⟩ [] [] none ∧
    processCategoryPart ⟨"", "", some "theia", none, none, false⟩ [] []
        (some ("theia/cat", "C")) = ([], []) :=
  ⟨(exclude_spec.1 ⟨"", "", some "theia", none, none, false⟩ "theia/x").mpr
      ⟨"theia", rfl, by decide, by decide⟩,
   exclude_spec.2.1 ⟨"", "", some "theia", none, none, false⟩
      (Expr.callExpr "nls.localize" (ExprList.cons (Expr.strLit "theia/x")
        (ExprList.cons (Expr.strLit "v") ExprList.nil)))
      [] [] [] "theia/x" "v" rfl rfl,
   exclude_spec.2.2.1 ⟨"", "", some "theia", none, none, false⟩ [] []
      ⟨("theia/cmd", "L"), none⟩ rfl,
   exclude_spec.2.2.2 ⟨"", "", some "theia", none, none, false⟩ [] []
      "theia/cat" "C" rfl⟩

end NlsExtract
